import Mathlib

/-!
# Verification of the go-bandit epsilon-greedy multi-armed bandit

Shallow embedding of the repository's two source files,
`epsilon_greedy.go` (the variant with validation and a lock held for the
whole critical section) and `greedy.go` (the variant with an `N` field,
`SetCounts`/`SetRewards`, and a lock around only the final store).

Modelling conventions:
* Go `float64` values (epsilon, rewards, means) are modelled as exact
  rationals `ℚ`; the incremental-mean identity is exact in this model.
* Go `int` / `int64` are modelled as `ℤ`.
* Go slices are Lean `List`s; `[]T` indexing is `List.getD` and slice
  assignment is `List.set`.
* Methods that return `error` are modelled as state transformers
  `State → State × Option Err`: an early `return err` in Go happens
  before any field is assigned, which the transformer renders as
  returning the input state unchanged paired with `some err`.
* `rand.Intn n` is modelled by an oracle argument: the caller of the
  embedded function supplies the drawn value, whose contract is that it
  lies in `[0, n)`.
* Methods that only read state under a lock (`SelectArm`, the accessors)
  are pure functions of the state; sequential locking behaviour is
  invisible in the sequential embedding.  The lost-update race of
  `greedy.go`'s `Update` is modelled separately by an explicit
  interleaving semantics (`Greedy.gstep` / `Greedy.runSched`).
-/

/-- Modelled from the spec: the error taxonomy of §7 (the file declaring
the error values, e.g. `errors.go`, is not under `src/`; the constructor
names below are exactly the identifiers referenced by the two source
files). `ErrInvalidArms` is the spec's `InvalidArmCount`,
`ErrInvalidEpsilon` is `InvalidEpsilon`, `ErrInvalidLength` is
`MismatchedLengths`, `ErrArmsIndexOutOfRange` is `ArmIndexOutOfRange`,
and `ErrInvalidReward` is `InvalidReward`. -/
inductive Err where
  | ErrInvalidArms
  | ErrInvalidEpsilon
  | ErrInvalidLength
  | ErrArmsIndexOutOfRange
  | ErrInvalidReward
deriving DecidableEq, Repr

/-- The `EpsilonGreedy` struct of `epsilon_greedy.go`: exploration
parameter, per-arm trial counts and per-arm running mean rewards.
(The embedded `sync.RWMutex` has no sequential content.) -/
structure EpsilonGreedy where
  Epsilon : ℚ
  Counts : List ℤ
  Rewards : List ℚ
deriving DecidableEq, Repr

/-- `Init` of `epsilon_greedy.go`: rejects `nArms < 1` with
`ErrInvalidArms`, otherwise replaces both slices by zeroed slices of
length `nArms`. -/
def EpsilonGreedy.Init (b : EpsilonGreedy) (nArms : ℤ) :
    EpsilonGreedy × Option Err :=
  if nArms < 1 then (b, some Err.ErrInvalidArms)
  else ({ b with
            Counts := List.replicate nArms.toNat 0,
            Rewards := List.replicate nArms.toNat 0 }, none)

/-- Modelled from the spec: the helper `maxMean` called by
`SelectArm` in `epsilon_greedy.go` (and the variadic `max` called in
`greedy.go`) is not under `src/`.  Per the spec (§4.1 SelectArm), exploit
returns "the index of the arm with the highest current `meanReward`",
with tie-break "the lowest index among them (first-occurring maximum)".
`firstMaxIdx` returns the least index of a maximal element of the list
(and `0` on the empty list, which construction prevents). -/
def firstMaxIdx : List ℚ → ℕ
  | [] => 0
  | [_] => 0
  | r :: s :: rs =>
    if (s :: rs).getD (firstMaxIdx (s :: rs)) 0 > r then
      firstMaxIdx (s :: rs) + 1
    else 0

/-- Modelled from the spec: `maxMean(counts, rewards)` — the exploit
choice over the running means; the counts argument is not consulted
(the spec's exploit rule depends only on `meanReward`). -/
def maxMean (_counts : List ℤ) (rewards : List ℚ) : ℕ :=
  firstMaxIdx rewards

/-- `SelectArm` of `epsilon_greedy.go`.  `probability` is the caller's
explicit draw; `exploreDraw` is the oracle value of
`rand.Intn (len b.Rewards)` used only on the explore branch. -/
def EpsilonGreedy.SelectArm (b : EpsilonGreedy) (probability : ℚ)
    (exploreDraw : ℕ) : ℕ :=
  if probability > b.Epsilon then
    maxMean b.Counts b.Rewards
  else
    exploreDraw

/-- `Update` of `epsilon_greedy.go`: validates the index against
`len(b.Rewards)` and the reward's sign, then increments the count and
folds the reward into the running mean with
`(oldRewards*(n-1) + reward) / n`, `n` being the post-increment count
(read back from the updated slice, as the Go code does). -/
def EpsilonGreedy.Update (b : EpsilonGreedy) (chosenArm : ℤ)
    (reward : ℚ) : EpsilonGreedy × Option Err :=
  if chosenArm < 0 ∨ (b.Rewards.length : ℤ) ≤ chosenArm then
    (b, some Err.ErrArmsIndexOutOfRange)
  else if reward < 0 then
    (b, some Err.ErrInvalidReward)
  else
    let i := chosenArm.toNat
    let counts := b.Counts.set i (b.Counts.getD i 0 + 1)
    let n : ℚ := ((counts.getD i 0 : ℤ) : ℚ)
    let oldRewards := b.Rewards.getD i 0
    let rewards := b.Rewards.set i ((oldRewards * (n - 1) + reward) / n)
    ({ b with Counts := counts, Rewards := rewards }, none)

/-- `GetCounts` of `epsilon_greedy.go` (the Go code returns a fresh
copy; a copy of a list is the list itself in the functional model). -/
def EpsilonGreedy.GetCounts (b : EpsilonGreedy) : List ℤ := b.Counts

/-- `GetRewards` of `epsilon_greedy.go`. -/
def EpsilonGreedy.GetRewards (b : EpsilonGreedy) : List ℚ := b.Rewards

/-- `NewEpsilonGreedy` of `epsilon_greedy.go`: validates `epsilon ∈ [0,1]`
and that the two slices have equal length; it performs no check on the
number of arms. -/
def NewEpsilonGreedy (epsilon : ℚ) (counts : List ℤ)
    (rewards : List ℚ) : Except Err EpsilonGreedy :=
  if epsilon < 0 ∨ 1 < epsilon then Except.error Err.ErrInvalidEpsilon
  else if counts.length ≠ rewards.length then Except.error Err.ErrInvalidLength
  else Except.ok { Epsilon := epsilon, Counts := counts, Rewards := rewards }

/-- The combined "(number of arms, epsilon)" construction path of the
spec (§4.1), realised by the two entry points of `epsilon_greedy.go`:
`NewEpsilonGreedy(epsilon, nil, nil)` followed by `Init(nArms)`. -/
def construct (nArms : ℤ) (epsilon : ℚ) : Except Err EpsilonGreedy :=
  match NewEpsilonGreedy epsilon [] [] with
  | Except.error e => Except.error e
  | Except.ok b =>
    match b.Init nArms with
    | (b1, none) => Except.ok b1
    | (_, some e) => Except.error e

/-- Folding a list of rewards into one arm by repeated `Update` calls,
stopping at the first error. -/
def applyRewards (b : EpsilonGreedy) (i : ℤ) :
    List ℚ → EpsilonGreedy × Option Err
  | [] => (b, none)
  | r :: rs =>
    match b.Update i r with
    | (b1, none) => applyRewards b1 i rs
    | (b1, some e) => (b1, some e)

namespace Greedy

/-- The `EpsilonGreedy` struct of `greedy.go`: same statistics plus the
arm count `N`, with a plain `sync.Mutex`. -/
structure EpsilonGreedy where
  Epsilon : ℚ
  Counts : List ℤ
  Rewards : List ℚ
  N : ℤ
deriving DecidableEq, Repr

/-- `SetRewards` of `greedy.go`: bulk replacement, no validation. -/
def EpsilonGreedy.SetRewards (b : EpsilonGreedy) (rewards : List ℚ) :
    EpsilonGreedy :=
  { b with Rewards := rewards }

/-- `SetCounts` of `greedy.go`: bulk replacement, no validation. -/
def EpsilonGreedy.SetCounts (b : EpsilonGreedy) (counts : List ℤ) :
    EpsilonGreedy :=
  { b with Counts := counts }

/-- `NewEpsilonGreedy` of `greedy.go`: no validation of either argument;
zeroed slices of length `nArms`. -/
def NewEpsilonGreedy (nArms : ℤ) (epsilonDecay : ℚ) : EpsilonGreedy :=
  { N := nArms,
    Epsilon := epsilonDecay,
    Rewards := List.replicate nArms.toNat 0,
    Counts := List.replicate nArms.toNat 0 }

/-!
Interleaving model of `greedy.go`'s `Update`.  The Go body is

```
b.Counts[chosenArm]++            // load Counts[i]; store Counts[i] = t+1
n := float64(b.Counts[chosenArm])  // load Counts[i]
v := float64(b.Rewards[chosenArm]) // load Rewards[i]
newValue := (v*(n-1) + reward) / n
// Should lock the mutex here
b.Lock()
b.Rewards[chosenArm] = newValue    // store Rewards[i]
b.Unlock()
```

Each shared-memory access is one atomic step below.  The mutex guards
only the single `writeReward` store; since that store is already one
atomic step, the lock excludes no interleaving of these steps, so it is
not represented.
-/

/-- The shared memory that concurrent `Update` calls race on. -/
structure Shared where
  Counts : List ℤ
  Rewards : List ℚ
deriving DecidableEq, Repr

/-- Program counter of one in-flight `Update` call. -/
inductive PC where
  | readCount
  | writeCount
  | readN
  | readV
  | writeReward
  | done
deriving DecidableEq, Repr

/-- One thread executing `Update(chosenArm, reward)`: its program
counter and the local variables of the Go body. -/
structure Thread where
  pc : PC
  chosenArm : ℕ
  reward : ℚ
  t : ℤ
  n : ℚ
  v : ℚ
deriving DecidableEq, Repr

/-- A thread at the start of `Update(arm, reward)`. -/
def Thread.start (arm : ℕ) (reward : ℚ) : Thread :=
  { pc := PC.readCount, chosenArm := arm, reward := reward,
    t := 0, n := 0, v := 0 }

/-- One atomic shared-memory step of a thread running `greedy.go`'s
`Update`. -/
def gstep (s : Shared) (th : Thread) : Shared × Thread :=
  match th.pc with
  | PC.readCount =>
    (s, { th with t := s.Counts.getD th.chosenArm 0, pc := PC.writeCount })
  | PC.writeCount =>
    ({ s with Counts := s.Counts.set th.chosenArm (th.t + 1) },
     { th with pc := PC.readN })
  | PC.readN =>
    (s, { th with n := ((s.Counts.getD th.chosenArm 0 : ℤ) : ℚ),
                  pc := PC.readV })
  | PC.readV =>
    (s, { th with v := s.Rewards.getD th.chosenArm 0, pc := PC.writeReward })
  | PC.writeReward =>
    ({ s with Rewards := s.Rewards.set th.chosenArm
                ((th.v * (th.n - 1) + th.reward) / th.n) },
     { th with pc := PC.done })
  | PC.done => (s, th)

/-- Run two threads under a schedule: `true` steps thread 1, `false`
steps thread 2. -/
def runSched : List Bool → Shared → Thread → Thread →
    Shared × Thread × Thread
  | [], s, t1, t2 => (s, t1, t2)
  | true :: rest, s, t1, t2 =>
    let p := gstep s t1
    runSched rest p.1 p.2 t2
  | false :: rest, s, t1, t2 =>
    let p := gstep s t2
    runSched rest p.1 t1 p.2

/-- The lost-update schedule: both threads load `Counts[0] = 0` before
either stores its increment, then each completes. -/
def raceSched : List Bool :=
  [true, false, true, false, true, true, true, false, false, false]

/-- `Update` of `greedy.go`, read sequentially: there is no validation
and no error return — the count is incremented unconditionally (any
reward, any index), `n` is re-read, and the new mean is stored.  (Its
behaviour under concurrent interleaving is modelled by `gstep` /
`runSched`; Go would panic on an index outside both slices, which the
total `getD`/`set` model does not represent — the counterexamples below
only use in-range indices.) -/
def EpsilonGreedy.Update (b : EpsilonGreedy) (chosenArm : ℤ)
    (reward : ℚ) : EpsilonGreedy :=
  let i := chosenArm.toNat
  let counts := b.Counts.set i (b.Counts.getD i 0 + 1)
  let n : ℚ := ((counts.getD i 0 : ℤ) : ℚ)
  let v := b.Rewards.getD i 0
  let rewards := b.Rewards.set i ((v * (n - 1) + reward) / n)
  { b with Counts := counts, Rewards := rewards }

end Greedy

/-! ## Helper lemmas -/

lemma getD_set_self {α : Type} (l : List α) (i : ℕ) (a d : α)
    (h : i < l.length) : (l.set i a).getD i d = a := by
  rw [List.getD_eq_getElem _ _ (by simpa using h)]
  simp [List.getElem_set_self]

lemma getD_set_ne {α : Type} (l : List α) (i j : ℕ) (a d : α)
    (h : j ≠ i) : (l.set i a).getD j d = l.getD j d := by
  rcases Nat.lt_or_ge j l.length with hj | hj
  · rw [List.getD_eq_getElem _ _ (by simpa using hj),
      List.getD_eq_getElem _ _ hj]
    rw [List.getElem_set_ne]
    omega
  · rw [List.getD_eq_default _ _ (by simpa using hj),
      List.getD_eq_default _ _ hj]

/-- `firstMaxIdx` returns an in-range index of a maximal element, and
every earlier index holds a strictly smaller value (so it is the least
index attaining the maximum). -/
lemma firstMaxIdx_spec (l : List ℚ) (hne : l ≠ []) :
    firstMaxIdx l < l.length ∧
    (∀ k < l.length, l.getD k 0 ≤ l.getD (firstMaxIdx l) 0) ∧
    (∀ k < firstMaxIdx l, l.getD k 0 < l.getD (firstMaxIdx l) 0) := by
  induction l with
  | nil => simp at hne
  | cons r rs ih =>
    cases rs with
    | nil =>
      refine ⟨by simp [firstMaxIdx], ?_, ?_⟩
      · intro k hk
        simp only [List.length_singleton, Nat.lt_one_iff] at hk
        subst hk
        simp [firstMaxIdx]
      · intro k hk
        simp [firstMaxIdx] at hk
    | cons s rs2 =>
      obtain ⟨ih1, ih2, ih3⟩ := ih (by simp)
      by_cases hgt : (s :: rs2).getD (firstMaxIdx (s :: rs2)) 0 > r
      · have heq : firstMaxIdx (r :: s :: rs2) = firstMaxIdx (s :: rs2) + 1 := by
          simp only [firstMaxIdx]
          rw [if_pos hgt]
        rw [heq]
        refine ⟨by simpa using Nat.succ_lt_succ ih1, ?_, ?_⟩
        · intro k hk
          cases k with
          | zero => simpa using le_of_lt hgt
          | succ k2 =>
            have := ih2 k2 (by simpa using hk)
            simpa using this
        · intro k hk
          cases k with
          | zero => simpa using hgt
          | succ k2 =>
            have := ih3 k2 (by omega)
            simpa using this
      · have hq : firstMaxIdx (r :: s :: rs2) = 0 := by
          simp only [firstMaxIdx]
          rw [if_neg hgt]
        rw [hq]
        refine ⟨by simp, ?_, ?_⟩
        · intro k hk
          cases k with
          | zero => simp
          | succ k2 =>
            have h2 := ih2 k2 (by simpa using hk)
            have h3 : (s :: rs2).getD k2 0 ≤ r := le_trans h2 (not_lt.mp hgt)
            simpa using h3
        · intro k hk
          exact absurd hk (Nat.not_lt_zero k)

/-- A successful `Update` at an in-range index with a non-negative
reward: the explicit resulting state. -/
lemma Update_ok (b : EpsilonGreedy) (i : ℕ) (r : ℚ)
    (hic : i < b.Counts.length) (hir : i < b.Rewards.length)
    (hr : 0 ≤ r) :
    b.Update i r =
      ({ b with
          Counts := b.Counts.set i (b.Counts.getD i 0 + 1),
          Rewards := b.Rewards.set i
            ((b.Rewards.getD i 0 * (((b.Counts.getD i 0 + 1 : ℤ) : ℚ) - 1) + r) /
              ((b.Counts.getD i 0 + 1 : ℤ) : ℚ)) }, none) := by
  unfold EpsilonGreedy.Update
  rw [if_neg (by omega), if_neg (by exact not_lt.mpr hr)]
  have hto : (i : ℤ).toNat = i := Int.toNat_natCast i
  simp only [hto]
  rw [getD_set_self _ _ _ _ hic]

/-- The effect of folding a reward list into arm `i` by repeated
`Update`: every call succeeds, the count grows by the list length, the
mean times the count grows by the sum of the list, and nothing else
changes. -/
lemma applyRewards_spec (i : ℕ) (rs : List ℚ) :
    ∀ b : EpsilonGreedy,
      (∀ r ∈ rs, 0 ≤ r) →
      i < b.Counts.length → i < b.Rewards.length →
      0 ≤ b.Counts.getD i 0 →
      ∃ b1 : EpsilonGreedy,
        applyRewards b i rs = (b1, none) ∧
        b1.Epsilon = b.Epsilon ∧
        b1.Counts.length = b.Counts.length ∧
        b1.Rewards.length = b.Rewards.length ∧
        b1.Counts.getD i 0 = b.Counts.getD i 0 + rs.length ∧
        b1.Rewards.getD i 0 * ((b1.Counts.getD i 0 : ℤ) : ℚ) =
          b.Rewards.getD i 0 * ((b.Counts.getD i 0 : ℤ) : ℚ) + rs.sum ∧
        (∀ j : ℕ, j ≠ i →
          b1.Counts.getD j 0 = b.Counts.getD j 0 ∧
          b1.Rewards.getD j 0 = b.Rewards.getD j 0) := by
  induction rs with
  | nil =>
    intro b _ _ _ _
    exact ⟨b, rfl, rfl, rfl, rfl, by simp, by simp, fun j _ => ⟨rfl, rfl⟩⟩
  | cons r rs ih =>
    intro b hrs hic hir hc
    have hr : 0 ≤ r := hrs r (by simp)
    have hstep := Update_ok b i r hic hir hr
    have hunf : applyRewards b i (r :: rs) =
        applyRewards ({ b with
          Counts := b.Counts.set i (b.Counts.getD i 0 + 1),
          Rewards := b.Rewards.set i
            ((b.Rewards.getD i 0 * (((b.Counts.getD i 0 + 1 : ℤ) : ℚ) - 1) + r) /
              ((b.Counts.getD i 0 + 1 : ℤ) : ℚ)) }) i rs := by
      rw [applyRewards, hstep]
    set bm : EpsilonGreedy :=
      { b with
        Counts := b.Counts.set i (b.Counts.getD i 0 + 1),
        Rewards := b.Rewards.set i
          ((b.Rewards.getD i 0 * (((b.Counts.getD i 0 + 1 : ℤ) : ℚ) - 1) + r) /
            ((b.Counts.getD i 0 + 1 : ℤ) : ℚ)) } with hbm
    have hmc : bm.Counts.length = b.Counts.length := by
      simp [hbm, List.length_set]
    have hmr : bm.Rewards.length = b.Rewards.length := by
      simp [hbm, List.length_set]
    have hmcount : bm.Counts.getD i 0 = b.Counts.getD i 0 + 1 := by
      simp only [hbm]
      exact getD_set_self _ _ _ _ hic
    have hmmean : bm.Rewards.getD i 0 =
        (b.Rewards.getD i 0 * (((b.Counts.getD i 0 + 1 : ℤ) : ℚ) - 1) + r) /
          ((b.Counts.getD i 0 + 1 : ℤ) : ℚ) := by
      simp only [hbm]
      exact getD_set_self _ _ _ _ hir
    obtain ⟨b1, h1, h2, h3, h4, h5, h6, h7⟩ :=
      ih bm (fun x hx => hrs x (by simp [hx]))
        (by rw [hmc]; exact hic) (by rw [hmr]; exact hir)
        (by rw [hmcount]; omega)
    refine ⟨b1, by rw [hunf]; exact h1, by rw [h2], by omega,
      by omega, by rw [h5, hmcount]; simp only [List.length_cons]; push_cast; ring, ?_, ?_⟩
    · have hn0 : ((b.Counts.getD i 0 + 1 : ℤ) : ℚ) ≠ 0 := by
        push_cast
        intro hcontr
        have : (b.Counts.getD i 0 : ℚ) = -1 := by linarith
        have : b.Counts.getD i 0 = -1 := by exact_mod_cast this
        omega
      rw [h6, hmmean, hmcount]
      rw [div_mul_cancel₀ _ hn0, List.sum_cons]
      push_cast
      ring
    · intro j hj
      obtain ⟨hj1, hj2⟩ := h7 j hj
      constructor
      · rw [hj1]
        simp only [hbm]
        exact getD_set_ne _ _ _ _ _ hj
      · rw [hj2]
        simp only [hbm]
        exact getD_set_ne _ _ _ _ _ hj

/-! ## Claims -/

/-- C1: for an arm `i` starting at count 0 and mean 0, feeding the
non-negative rewards `rs` in order through `Update` leaves
`Counts[i] = rs.length` and `Rewards[i]` equal to the arithmetic
average `rs.sum / rs.length` (exact in the rational model of `float64`;
each step computes `(oldMean*(n-1) + reward)/n` with `n` the
post-increment count, as `Update` does). -/
theorem C1_update_sequence_average (b : EpsilonGreedy) (i : ℕ)
    (rs : List ℚ)
    (hic : i < b.Counts.length) (hir : i < b.Rewards.length)
    (hc0 : b.Counts.getD i 0 = 0) (hm0 : b.Rewards.getD i 0 = 0)
    (hrs : ∀ r ∈ rs, 0 ≤ r) :
    ∃ b1 : EpsilonGreedy,
      applyRewards b i rs = (b1, none) ∧
      b1.Counts.getD i 0 = rs.length ∧
      b1.Rewards.getD i 0 = rs.sum / rs.length := by
  cases rs with
  | nil =>
    refine ⟨b, rfl, by rw [hc0]; rfl, ?_⟩
    rw [hm0]
    simp
  | cons r rs2 =>
    obtain ⟨b1, h1, _, _, _, h5, h6, _⟩ :=
      applyRewards_spec i (r :: rs2) b hrs hic hir (by rw [hc0])
    rw [hc0] at h5
    rw [hc0, hm0] at h6
    refine ⟨b1, h1, by omega, ?_⟩
    have hcnt : ((b1.Counts.getD i 0 : ℤ) : ℚ) = (((r :: rs2).length : ℕ) : ℚ) := by
      rw [h5]
      push_cast
      ring
    rw [hcnt] at h6
    simp only [Int.cast_zero, mul_zero, zero_mul, zero_add] at h6
    have hlenpos : (0 : ℚ) < (((r :: rs2).length : ℕ) : ℚ) := by
      have hp : 0 < (r :: rs2).length := Nat.succ_pos _
      exact_mod_cast hp
    rw [eq_div_iff (ne_of_gt hlenpos)]
    exact h6

/-- Witness for C1 at a concrete input: rewards 1, 2, 3 on arm 0 of a
fresh two-arm state give count 3 and mean 2. -/
theorem C1_update_sequence_average_witness :
    ∃ b1 : EpsilonGreedy,
      applyRewards ⟨1/2, [0, 0], [0, 0]⟩ 0 [1, 2, 3] = (b1, none) ∧
      b1.Counts.getD 0 0 = ([1, 2, 3] : List ℚ).length ∧
      b1.Rewards.getD 0 0 =
        ([1, 2, 3] : List ℚ).sum / ([1, 2, 3] : List ℚ).length :=
  C1_update_sequence_average ⟨1/2, [0, 0], [0, 0]⟩ 0 [1, 2, 3]
    (by decide) (by decide) (by decide) (by decide) (by decide)

/-- C2: with at least one arm and an explore draw in range, `SelectArm`
exploits when the supplied draw exceeds epsilon — returning
`maxMean`, an in-range index attaining the highest running mean — and
explores when the draw is at most epsilon (equality included),
returning the uniformly drawn `rand.Intn` value. -/
theorem C2_select_arm_decision (b : EpsilonGreedy) (p : ℚ) (d : ℕ)
    (hN : 0 < b.Rewards.length) (hd : d < b.Rewards.length) :
    (b.Epsilon < p →
      b.SelectArm p d = maxMean b.Counts b.Rewards ∧
      maxMean b.Counts b.Rewards < b.Rewards.length ∧
      ∀ k < b.Rewards.length,
        b.Rewards.getD k 0 ≤ b.Rewards.getD (maxMean b.Counts b.Rewards) 0) ∧
    (p ≤ b.Epsilon → b.SelectArm p d = d ∧ d < b.Rewards.length) := by
  have hne : b.Rewards ≠ [] := by
    intro h
    rw [h] at hN
    simp at hN
  obtain ⟨hm1, hm2, _⟩ := firstMaxIdx_spec b.Rewards hne
  constructor
  · intro hp
    refine ⟨?_, hm1, hm2⟩
    unfold EpsilonGreedy.SelectArm
    rw [if_pos hp]
  · intro hp
    refine ⟨?_, hd⟩
    unfold EpsilonGreedy.SelectArm
    rw [if_neg (not_lt.mpr hp)]

/-- Witness for C2 with means 1/5, 9/10, 1/2, draw 1 and epsilon 1/2
(exploit), plus the explore side at draw 0. -/
theorem C2_select_arm_decision_witness :
    ((⟨1/2, [0, 0, 0], [1/5, 9/10, 1/2]⟩ : EpsilonGreedy).Epsilon < 1 →
      (⟨1/2, [0, 0, 0], [1/5, 9/10, 1/2]⟩ : EpsilonGreedy).SelectArm 1 2 =
        maxMean [0, 0, 0] [1/5, 9/10, 1/2] ∧
      maxMean [0, 0, 0] [1/5, 9/10, 1/2] <
        ([1/5, 9/10, 1/2] : List ℚ).length ∧
      ∀ k < ([1/5, 9/10, 1/2] : List ℚ).length,
        ([1/5, 9/10, 1/2] : List ℚ).getD k 0 ≤
          ([1/5, 9/10, 1/2] : List ℚ).getD
            (maxMean [0, 0, 0] [1/5, 9/10, 1/2]) 0) ∧
    ((1 : ℚ) ≤ (⟨1/2, [0, 0, 0], [1/5, 9/10, 1/2]⟩ : EpsilonGreedy).Epsilon →
      (⟨1/2, [0, 0, 0], [1/5, 9/10, 1/2]⟩ : EpsilonGreedy).SelectArm 1 2 = 2 ∧
      2 < ([1/5, 9/10, 1/2] : List ℚ).length) :=
  C2_select_arm_decision ⟨1/2, [0, 0, 0], [1/5, 9/10, 1/2]⟩ 1 2
    (by decide) (by decide)

/-- C3 counterexample: the claim (citing `greedy.go`'s `Update`) says a
negative reward makes the call fail with `InvalidReward` and leaves the
state unchanged; but `greedy.go`'s `Update` returns no error and
validates nothing, so `Update(0, -1)` on a fresh one-arm state folds
the negative reward in: the count becomes 1 and the mean -1, while the
claim requires count 0 and mean 0. -/
theorem C3_counterexample :
    ((Greedy.NewEpsilonGreedy 1 0).Update 0 (-1)).Counts = [1] ∧
    ((Greedy.NewEpsilonGreedy 1 0).Update 0 (-1)).Rewards = [-1] ∧
    (Greedy.NewEpsilonGreedy 1 0).Counts = [0] ∧
    (Greedy.NewEpsilonGreedy 1 0).Rewards = [0] := by
  refine ⟨?_, ?_, by decide, by decide⟩ <;>
    simp [Greedy.EpsilonGreedy.Update, Greedy.NewEpsilonGreedy]

/-- C3 amended: for the `epsilon_greedy.go` variant, `Update` fails
with `ErrArmsIndexOutOfRange` for an index outside `[0, N)`, fails with
`ErrInvalidReward` for an in-range index and a negative reward, and
every error case returns the state completely unchanged
(all-or-nothing); `greedy.go`'s `Update` performs no validation and
returns no error, so the property does not hold of it. -/
theorem C3_update_validation (b : EpsilonGreedy) (i : ℤ) (r : ℚ) :
    ((i < 0 ∨ (b.Rewards.length : ℤ) ≤ i) →
      b.Update i r = (b, some Err.ErrArmsIndexOutOfRange)) ∧
    (0 ≤ i → i < (b.Rewards.length : ℤ) → r < 0 →
      b.Update i r = (b, some Err.ErrInvalidReward)) ∧
    (∀ e : Err, (b.Update i r).2 = some e → (b.Update i r).1 = b) := by
  refine ⟨?_, ?_, ?_⟩
  · intro h
    unfold EpsilonGreedy.Update
    rw [if_pos h]
  · intro h1 h2 h3
    unfold EpsilonGreedy.Update
    rw [if_neg (by omega), if_pos h3]
  · intro e he
    unfold EpsilonGreedy.Update at he ⊢
    by_cases hg : i < 0 ∨ (b.Rewards.length : ℤ) ≤ i
    · rw [if_pos hg]
    · rw [if_neg hg] at he ⊢
      by_cases hr : r < 0
      · rw [if_pos hr]
      · rw [if_neg hr] at he
        simp at he

/-- Witness for C3: on a one-arm state, index 1 is rejected as out of
range with the state unchanged. -/
theorem C3_update_validation_witness :
    (⟨1/2, [0], [0]⟩ : EpsilonGreedy).Update 1 1 =
      (⟨1/2, [0], [0]⟩, some Err.ErrArmsIndexOutOfRange) :=
  (C3_update_validation ⟨1/2, [0], [0]⟩ 1 1).1 (by decide)

/-- C4 counterexample: the claim (citing `greedy.go`'s
`NewEpsilonGreedy`) says construction fails with `InvalidArmCount` for
N = 0 and with `InvalidEpsilon` for epsilon outside `[0, 1]`; but
`greedy.go`'s `NewEpsilonGreedy` has no error path at all:
`NewEpsilonGreedy(0, 2)` succeeds, yielding a zero-arm state with
epsilon 2. -/
theorem C4_counterexample :
    (Greedy.NewEpsilonGreedy 0 2).Counts.length = 0 ∧
    (Greedy.NewEpsilonGreedy 0 2).Rewards.length = 0 ∧
    (Greedy.NewEpsilonGreedy 0 2).Epsilon = 2 ∧
    (Greedy.NewEpsilonGreedy 0 2).N = 0 := by
  decide

/-- C4 amended: the combined (arm count, epsilon) construction path of
`epsilon_greedy.go` — the `NewEpsilonGreedy(epsilon, nil, nil)` call
followed by `Init(nArms)` — succeeds for every `nArms ≥ 1` and
`epsilon ∈ [0, 1]` with `nArms` zeroed arms, fails with
`ErrInvalidArms` (the spec's `InvalidArmCount`) for `nArms ≤ 0`, and
fails with `ErrInvalidEpsilon` for epsilon outside `[0, 1]`;
`greedy.go`'s `NewEpsilonGreedy` validates nothing and never fails, so
the claimed failures do not hold of it. -/
theorem C4_construction (nArms : ℤ) (eps : ℚ) :
    (1 ≤ nArms → 0 ≤ eps → eps ≤ 1 →
      construct nArms eps = Except.ok
        { Epsilon := eps, Counts := List.replicate nArms.toNat 0,
          Rewards := List.replicate nArms.toNat 0 }) ∧
    (0 ≤ eps → eps ≤ 1 → nArms < 1 →
      construct nArms eps = Except.error Err.ErrInvalidArms) ∧
    ((eps < 0 ∨ 1 < eps) →
      construct nArms eps = Except.error Err.ErrInvalidEpsilon) := by
  refine ⟨?_, ?_, ?_⟩
  · intro h1 h2 h3
    have heps : ¬(eps < 0 ∨ 1 < eps) := by
      rintro (h | h) <;> linarith
    unfold construct NewEpsilonGreedy EpsilonGreedy.Init
    rw [if_neg heps]
    simp only [List.length_nil, ne_eq, not_true_eq_false, ite_false,
      if_neg (by omega : ¬nArms < 1)]
  · intro h1 h2 h3
    have heps : ¬(eps < 0 ∨ 1 < eps) := by
      rintro (h | h) <;> linarith
    unfold construct NewEpsilonGreedy EpsilonGreedy.Init
    rw [if_neg heps]
    simp only [List.length_nil, ne_eq, not_true_eq_false, ite_false,
      if_pos h3]
  · intro h
    unfold construct NewEpsilonGreedy
    rw [if_pos h]

/-- Witness for C4: three arms and epsilon 1 construct successfully
with zeroed statistics. -/
theorem C4_construction_witness :
    construct 3 1 = Except.ok
      { Epsilon := 1, Counts := List.replicate (3 : ℤ).toNat 0,
        Rewards := List.replicate (3 : ℤ).toNat 0 } :=
  (C4_construction 3 1).1 (by decide) (by decide) (by decide)

/-- C5: when the draw forces exploit and several arms tie for the
maximum mean, `SelectArm` returns the lowest index among the tied arms
(an in-range maximizer with every earlier arm strictly smaller), and
the result does not depend on the explore oracle, so repeated exploit
calls on the unchanged state agree. -/
theorem C5_exploit_tie_break (b : EpsilonGreedy) (p : ℚ) (d d2 j k : ℕ)
    (hp : b.Epsilon < p)
    (hjk : j < k) (hk : k < b.Rewards.length)
    (htie : b.Rewards.getD j 0 = b.Rewards.getD k 0)
    (hmax : ∀ m < b.Rewards.length, b.Rewards.getD m 0 ≤ b.Rewards.getD j 0) :
    b.SelectArm p d = b.SelectArm p d2 ∧
    b.SelectArm p d < b.Rewards.length ∧
    (∀ m < b.Rewards.length,
      b.Rewards.getD m 0 ≤ b.Rewards.getD (b.SelectArm p d) 0) ∧
    (∀ m < b.SelectArm p d,
      b.Rewards.getD m 0 < b.Rewards.getD (b.SelectArm p d) 0) := by
  have hne : b.Rewards ≠ [] := by
    intro h
    rw [h] at hk
    simp at hk
  obtain ⟨h1, h2, h3⟩ := firstMaxIdx_spec b.Rewards hne
  have hsel : b.SelectArm p d = firstMaxIdx b.Rewards := by
    unfold EpsilonGreedy.SelectArm maxMean
    rw [if_pos hp]
  have hsel2 : b.SelectArm p d2 = firstMaxIdx b.Rewards := by
    unfold EpsilonGreedy.SelectArm maxMean
    rw [if_pos hp]
  rw [hsel, hsel2]
  exact ⟨rfl, h1, h2, h3⟩

/-- Witness for C5: means 5, 5, 1 with a tie between arms 0 and 1;
exploit (draw 1 > epsilon 0) returns arm 0 independently of the explore
oracle. -/
theorem C5_exploit_tie_break_witness :
    (⟨0, [0, 0, 0], [5, 5, 1]⟩ : EpsilonGreedy).SelectArm 1 0 =
      (⟨0, [0, 0, 0], [5, 5, 1]⟩ : EpsilonGreedy).SelectArm 1 2 ∧
    (⟨0, [0, 0, 0], [5, 5, 1]⟩ : EpsilonGreedy).SelectArm 1 0 <
      ([5, 5, 1] : List ℚ).length ∧
    (∀ m < ([5, 5, 1] : List ℚ).length,
      ([5, 5, 1] : List ℚ).getD m 0 ≤
        ([5, 5, 1] : List ℚ).getD
          ((⟨0, [0, 0, 0], [5, 5, 1]⟩ : EpsilonGreedy).SelectArm 1 0) 0) ∧
    (∀ m < (⟨0, [0, 0, 0], [5, 5, 1]⟩ : EpsilonGreedy).SelectArm 1 0,
      ([5, 5, 1] : List ℚ).getD m 0 <
        ([5, 5, 1] : List ℚ).getD
          ((⟨0, [0, 0, 0], [5, 5, 1]⟩ : EpsilonGreedy).SelectArm 1 0) 0) :=
  C5_exploit_tie_break ⟨0, [0, 0, 0], [5, 5, 1]⟩ 1 0 2 0 1
    (by decide) (by decide) (by decide) (by decide) (by decide)

/-- C6 counterexample: the claim says `len(Counts) == len(Rewards)` is
preserved by every operation, `SetRewards` included; but `greedy.go`'s
`SetRewards` replaces the slice without validation, so replacing the
rewards of a freshly built one-arm state by an empty slice breaks the
invariant. -/
theorem C6_counterexample :
    ¬(((Greedy.NewEpsilonGreedy 1 0).SetRewards []).Counts.length =
      ((Greedy.NewEpsilonGreedy 1 0).SetRewards []).Rewards.length) := by
  decide

/-- C6 amended: the length invariant is established by `Init` and by
both constructors, and preserved by `Update`; `SetRewards`/`SetCounts`
preserve it exactly when the supplied slice's length matches the
other slice (they validate nothing themselves). -/
theorem C6_length_invariant :
    (∀ (b b1 : EpsilonGreedy) (n : ℤ), b.Init n = (b1, none) →
      b1.Counts.length = b1.Rewards.length) ∧
    (∀ (eps : ℚ) (cs : List ℤ) (rs : List ℚ) (b1 : EpsilonGreedy),
      NewEpsilonGreedy eps cs rs = Except.ok b1 →
      b1.Counts.length = b1.Rewards.length) ∧
    (∀ (n : ℤ) (eps : ℚ),
      (Greedy.NewEpsilonGreedy n eps).Counts.length =
        (Greedy.NewEpsilonGreedy n eps).Rewards.length) ∧
    (∀ (b : EpsilonGreedy) (i : ℤ) (r : ℚ),
      b.Counts.length = b.Rewards.length →
      (b.Update i r).1.Counts.length = (b.Update i r).1.Rewards.length) ∧
    (∀ (g : Greedy.EpsilonGreedy) (rs : List ℚ),
      g.Counts.length = rs.length →
      (g.SetRewards rs).Counts.length = (g.SetRewards rs).Rewards.length) ∧
    (∀ (g : Greedy.EpsilonGreedy) (cs : List ℤ),
      cs.length = g.Rewards.length →
      (g.SetCounts cs).Counts.length = (g.SetCounts cs).Rewards.length) := by
  refine ⟨?_, ?_, ?_, ?_, ?_, ?_⟩
  · intro b b1 n h
    unfold EpsilonGreedy.Init at h
    by_cases hn : n < 1
    · rw [if_pos hn] at h
      simp at h
    · rw [if_neg hn] at h
      injection h with h1 h2
      rw [← h1]
      simp
  · intro eps cs rs b1 h
    unfold NewEpsilonGreedy at h
    by_cases he : eps < 0 ∨ 1 < eps
    · rw [if_pos he] at h
      simp at h
    · rw [if_neg he] at h
      by_cases hl : cs.length ≠ rs.length
      · rw [if_pos hl] at h
        simp at h
      · rw [if_neg hl] at h
        simp only [Except.ok.injEq] at h
        rw [← h]
        simpa using not_ne_iff.mp hl
  · intro n eps
    simp [Greedy.NewEpsilonGreedy]
  · intro b i r h
    unfold EpsilonGreedy.Update
    by_cases hg : i < 0 ∨ (b.Rewards.length : ℤ) ≤ i
    · rw [if_pos hg]
      exact h
    · rw [if_neg hg]
      by_cases hr : r < 0
      · rw [if_pos hr]
        exact h
      · rw [if_neg hr]
        simpa using h
  · intro g rs h
    simpa [Greedy.EpsilonGreedy.SetRewards] using h
  · intro g cs h
    simpa [Greedy.EpsilonGreedy.SetCounts] using h

/-- Witness for the amended C6: `Update` on a one-arm state keeps the
two slices the same length. -/
theorem C6_length_invariant_witness :
    ((⟨1/2, [0], [0]⟩ : EpsilonGreedy).Update 0 1).1.Counts.length =
      ((⟨1/2, [0], [0]⟩ : EpsilonGreedy).Update 0 1).1.Rewards.length :=
  C6_length_invariant.2.2.2.1 ⟨1/2, [0], [0]⟩ 0 1 (by decide)

/-- C7: a successful `Update(i, r)` changes at most `Counts[i]` and
`Rewards[i]`: epsilon, both lengths, and every other arm's count and
mean are unchanged. -/
theorem C7_update_frame (b : EpsilonGreedy) (i : ℤ) (r : ℚ)
    (b1 : EpsilonGreedy) (h : b.Update i r = (b1, none)) :
    b1.Epsilon = b.Epsilon ∧
    b1.Counts.length = b.Counts.length ∧
    b1.Rewards.length = b.Rewards.length ∧
    ∀ j : ℕ, (j : ℤ) ≠ i →
      b1.Counts.getD j 0 = b.Counts.getD j 0 ∧
      b1.Rewards.getD j 0 = b.Rewards.getD j 0 := by
  unfold EpsilonGreedy.Update at h
  by_cases hg : i < 0 ∨ (b.Rewards.length : ℤ) ≤ i
  · rw [if_pos hg] at h
    simp at h
  · rw [if_neg hg] at h
    push_neg at hg
    by_cases hr : r < 0
    · rw [if_pos hr] at h
      simp at h
    · rw [if_neg hr] at h
      injection h with h1 h2
      rw [← h1]
      refine ⟨rfl, by simp, by simp, ?_⟩
      intro j hj
      have hji : j ≠ i.toNat := by omega
      exact ⟨getD_set_ne _ _ _ _ _ hji, getD_set_ne _ _ _ _ _ hji⟩

/-- Witness for C7: updating arm 0 of a two-arm state leaves epsilon,
the lengths and arm 1 untouched. -/
theorem C7_update_frame_witness :
    (⟨0, [0, 0], [0, 0]⟩ : EpsilonGreedy).Epsilon =
      (⟨0, [0, 0], [0, 0]⟩ : EpsilonGreedy).Epsilon ∧
    (⟨0, [1, 0], [1, 0]⟩ : EpsilonGreedy).Counts.length =
      (⟨0, [0, 0], [0, 0]⟩ : EpsilonGreedy).Counts.length ∧
    (⟨0, [1, 0], [1, 0]⟩ : EpsilonGreedy).Rewards.length =
      (⟨0, [0, 0], [0, 0]⟩ : EpsilonGreedy).Rewards.length ∧
    ∀ j : ℕ, (j : ℤ) ≠ 0 →
      (⟨0, [1, 0], [1, 0]⟩ : EpsilonGreedy).Counts.getD j 0 =
        (⟨0, [0, 0], [0, 0]⟩ : EpsilonGreedy).Counts.getD j 0 ∧
      (⟨0, [1, 0], [1, 0]⟩ : EpsilonGreedy).Rewards.getD j 0 =
        (⟨0, [0, 0], [0, 0]⟩ : EpsilonGreedy).Rewards.getD j 0 :=
  C7_update_frame ⟨0, [0, 0], [0, 0]⟩ 0 1 ⟨0, [1, 0], [1, 0]⟩
    (by simp [EpsilonGreedy.Update])

/-- C8: with at least one arm and the `rand.Intn` oracle honouring its
range contract, `SelectArm` returns an index in `[0, N)` for every
draw (it is read-only: its embedding is a pure function of the state,
matching the Go body, which contains no assignment). -/
theorem C8_select_arm_in_range (b : EpsilonGreedy) (p : ℚ) (d : ℕ)
    (hN : 0 < b.Rewards.length) (hd : d < b.Rewards.length) :
    b.SelectArm p d < b.Rewards.length := by
  have hne : b.Rewards ≠ [] := by
    intro h
    rw [h] at hN
    simp at hN
  unfold EpsilonGreedy.SelectArm
  by_cases hp : p > b.Epsilon
  · rw [if_pos hp]
    unfold maxMean
    exact (firstMaxIdx_spec b.Rewards hne).1
  · rw [if_neg hp]
    exact hd

/-- Witness for C8: on a one-arm state both branches yield index 0. -/
theorem C8_select_arm_in_range_witness :
    (⟨0, [0], [0]⟩ : EpsilonGreedy).SelectArm 1 0 <
      (⟨0, [0], [0]⟩ : EpsilonGreedy).Rewards.length :=
  C8_select_arm_in_range ⟨0, [0], [0]⟩ 1 0 (by decide) (by decide)

/-- C9: evaluation of `greedy.go`'s `Update` at the failing input.  Two
concurrent `Update(0, 1)` calls on a one-arm state starting from count
0, interleaved so that both threads read `Counts[0] = 0` before either
stores its increment (`raceSched`), both run to completion, yet the
final count is 1, not 2: the unguarded read-modify-write loses an
update, contradicting the claim that the whole sequence is atomic.
(The mutex of `greedy.go` guards only the final store, which is a
single atomic step of this model, so it excludes no interleaving.) -/
theorem C9_greedy_lost_update :
    (Greedy.runSched Greedy.raceSched ⟨[0], [0]⟩
        (Greedy.Thread.start 0 1) (Greedy.Thread.start 0 1)).2.1.pc =
      Greedy.PC.done ∧
    (Greedy.runSched Greedy.raceSched ⟨[0], [0]⟩
        (Greedy.Thread.start 0 1) (Greedy.Thread.start 0 1)).2.2.pc =
      Greedy.PC.done ∧
    (Greedy.runSched Greedy.raceSched ⟨[0], [0]⟩
        (Greedy.Thread.start 0 1) (Greedy.Thread.start 0 1)).1.Counts = [1] ∧
    (Greedy.runSched Greedy.raceSched ⟨[0], [0]⟩
        (Greedy.Thread.start 0 1) (Greedy.Thread.start 0 1)).1.Counts ≠ [2] := by
  decide

/-- C10: the direct constructor `NewEpsilonGreedy(epsilon, counts,
rewards)` checks only epsilon and the length match — never the arm
count — so any equal-length pair, the empty pair included, yields a
state whose arm count is `counts.length`, even 0. -/
theorem C10_direct_construction_no_arm_check (eps : ℚ) (cs : List ℤ)
    (rs : List ℚ)
    (h0 : 0 ≤ eps) (h1 : eps ≤ 1) (hlen : cs.length = rs.length) :
    NewEpsilonGreedy eps cs rs =
      Except.ok { Epsilon := eps, Counts := cs, Rewards := rs } ∧
    ({ Epsilon := eps, Counts := cs, Rewards := rs } : EpsilonGreedy).Counts.length =
      cs.length := by
  constructor
  · unfold NewEpsilonGreedy
    rw [if_neg (by rintro (h | h) <;> linarith), if_neg (by simpa using hlen)]
  · rfl

/-- Witness for C10: two empty slices are accepted, yielding a zero-arm
state. -/
theorem C10_direct_construction_no_arm_check_witness :
    NewEpsilonGreedy 1 [] [] =
      Except.ok { Epsilon := 1, Counts := [], Rewards := [] } ∧
    ({ Epsilon := 1, Counts := [], Rewards := [] } : EpsilonGreedy).Counts.length =
      ([] : List ℤ).length :=
  C10_direct_construction_no_arm_check 1 [] [] (by decide) (by decide) (by decide)
